import Mathlib

/-!
Verification development for the items server (Express + CS2 sheet enrichment).

The repository has two server variants: a pure in-memory one (`src/server.js`
and the first file of `src/unnamed/part_000`) and a persistent Mongo-backed
one (the second file of `src/unnamed/part_000`).  The definitions below are
shallow embeddings of the JavaScript functions of those files: strings are
Lean `String`/`List Char`, JS numbers are `ℚ` (option `none` models JS
`null`/`undefined`/`NaN` where the code treats them as absent), `Date.now()`
timestamps are `ℕ` milliseconds, and the cooperative async scheduler is made
explicit as a small-step relation where a claim is about interleavings.
-/

namespace Items

/-! ## JS string primitives -/

/-- Whitespace test used by JS `String.prototype.trim` (restricted to the
ASCII whitespace that can occur in the sheet data). -/
def jsIsWS (c : Char) : Bool :=
  c = ' ' || c = '\t' || c = '\n' || c = '\r'

/-- Model of JS `s.trim()` on a character list: strip leading and trailing
whitespace. -/
def trimChars (cs : List Char) : List Char :=
  ((cs.dropWhile jsIsWS).reverse.dropWhile jsIsWS).reverse

/-- Model of JS `s.trim()` on `String`. -/
def jsTrim (s : String) : String :=
  String.mk (trimChars s.data)

/-! ## Numeric cell parsing

`src/server.js` parses numeric cells in three different ways:
`moneyToNumber` (lines 206-210), the inline sheet-price parse of the
request path (lines 269-273), and — in the persistent variant —
`numOrNull` (part_000 lines 332-339).  All three strip every character
except digits, `.` and `-` and then apply JS `Number(...)`.  `jsNumber`
models JS `Number(s)` for strings over that residual alphabet, returning
`none` for `NaN`; decimal values are represented exactly as rationals. -/

/-- Characters kept by the strip regex `/[^0-9.\-]/g`. -/
def isNumChar (c : Char) : Bool :=
  c.isDigit || c = '.' || c = '-'

/-- Model of `String(x).replace(/[^0-9.\-]/g, "")`. -/
def stripNum (cs : List Char) : List Char :=
  cs.filter isNumChar

/-- Value of a digit list read as a natural number (most significant first). -/
def natVal (ds : List Char) : ℕ :=
  ds.foldl (fun a c => 10 * a + (c.toNat - 48)) 0

/-- Value of a digit list read as the fractional part after a decimal point. -/
def fracVal (ds : List Char) : ℚ :=
  ds.foldr (fun c a => ((c.toNat - 48 : ℕ) + a) / 10) 0

/-- Model of JS `Number(s)` for a string containing only digits, `.` and `-`
(the residue of the strip regex).  JS accepts an optional sign, then
`digits* [ "." digits* ]` with at least one digit; the empty string
converts to `0`; anything else is `NaN` (`none`). -/
def jsNumber (l : List Char) : Option ℚ :=
  if l = [] then some 0
  else
    let sgn : Bool := l.headI = '-'
    let l1 := if sgn then l.tail else l
    let ip := l1.takeWhile Char.isDigit
    let r1 := l1.dropWhile Char.isDigit
    match r1 with
    | [] =>
      if ip = [] then none
      else some ((if sgn then -1 else 1) * (natVal ip : ℚ))
    | '.' :: r2 =>
      let fp := r2.takeWhile Char.isDigit
      let r3 := r2.dropWhile Char.isDigit
      if r3 = [] then
        if ip = [] && fp = [] then none
        else some ((if sgn then -1 else 1) * ((natVal ip : ℚ) + fracVal fp))
      else none
    | _ => none

/-- Model of `numOrNull` (part_000 lines 332-339): trims, returns `null` for
the empty string, strips non-numeric characters, guards the degenerate
strings `""`, `"-"`, `"."`, `"-."`, and otherwise converts with `Number`,
normalizing `NaN` to `null`. -/
def numOrNull (x : Option String) : Option ℚ :=
  let s0 := jsTrim (x.getD "")
  if s0 = "" then none
  else
    let s := stripNum s0.data
    if s = [] || s = ['-'] || s = ['.'] || s = ['-', '.'] then none
    else jsNumber s

/-- Truncation of a rational toward zero, as JS `Math.trunc`. -/
def ratTrunc (q : ℚ) : ℤ :=
  Int.tdiv q.num (q.den : ℤ)

/-- Model of `intOrNull` (part_000 lines 341-344): `numOrNull` then
`Math.trunc` (truncation toward zero). -/
def intOrNull (x : Option String) : Option ℤ :=
  (numOrNull x).map ratTrunc

/-- Model of `moneyToNumber` (src/server.js lines 206-210): `null` for a
falsy argument (absent or empty string), else strip and `Number`, with
non-finite results normalized to `null`. -/
def moneyToNumber (x : Option String) : Option ℚ :=
  match x with
  | none => none
  | some s => if s = "" then none else jsNumber (stripNum s.data)

/-- Model of the inline sheet-price parse on the request path
(src/server.js lines 269-273):
`Number(String(sheetPriceRaw ?? "").replace(/[^0-9.\-]/g, ""))`, kept when
finite, else `null`.  Note there is no emptiness guard before `Number`. -/
def sheetPriceOfCell (raw : Option String) : Option ℚ :=
  jsNumber (stripNum (raw.getD "").data)

/-! ## CSV parsing

Embedding of `parseCsv` / `parseCsvLine` (src/server.js lines 66-91,
identical in both part_000 variants). -/

/-- Model of JS `text.split(/\r?\n/)`: split on `"\r\n"` or `"\n"`; a lone
`'\r'` is ordinary content.  Splitting the empty string yields `[""]`,
as in JS. -/
def splitLinesAux : List Char → List Char → List (List Char)
  | [], cur => [cur.reverse]
  | '\r' :: '\n' :: rest, cur => cur.reverse :: splitLinesAux rest []
  | '\n' :: rest, cur => cur.reverse :: splitLinesAux rest []
  | c :: rest, cur => splitLinesAux rest (c :: cur)

/-- The character loop of `parseCsvLine` (src/server.js lines 71-89),
before the final per-cell trim: a double quote toggles `inQuotes` unless it
is the first of a doubled quote inside a quoted region (which emits one
quote); a comma outside quotes ends the current cell; every other
character is appended to the current cell. -/
def pclAux : List Char → Bool → List Char → List (List Char)
  | [], _, cur => [cur]
  | '"' :: '"' :: rest, true, cur => pclAux rest true (cur ++ ['"'])
  | '"' :: rest, inQ, cur => pclAux rest (!inQ) cur
  | c :: rest, inQ, cur =>
    if c = ',' && !inQ then cur :: pclAux rest inQ []
    else pclAux rest inQ (cur ++ [c])

/-- Model of `parseCsvLine` on a character list, including the final
`out.map(s => s.trim())`. -/
def parseCsvLineL (l : List Char) : List (List Char) :=
  (pclAux l false []).map trimChars

/-- Model of `parseCsvLine` on `String`. -/
def parseCsvLine (s : String) : List String :=
  (parseCsvLineL s.data).map String.mk

/-- Model of `parseCsv` (src/server.js lines 66-69):
`text.trim().split(/\r?\n/)` then `parseCsvLine` on every line. -/
def parseCsv (text : String) : List (List String) :=
  (splitLinesAux (trimChars text.data) []).map (fun l => (parseCsvLineL l).map String.mk)

/-! ## CSV encoding (for the round-trip claim)

The quoted-cell encoding the spec's round-trip property quantifies over:
every cell is enclosed in double quotes and inner quotes are doubled. -/

/-- Double every `'"'` in a cell (the CSV `""` escape). -/
def escQuotes : List Char → List Char
  | [] => []
  | c :: cs => if c = '"' then '"' :: '"' :: escQuotes cs else c :: escQuotes cs

/-- Enclose a cell in double quotes, doubling inner quotes. -/
def encodeCell (cs : List Char) : List Char :=
  '"' :: (escQuotes cs ++ ['"'])

/-- Join quote-enclosed cells with commas into one CSV line. -/
def encodeLine : List (List Char) → List Char
  | [] => []
  | [c] => encodeCell c
  | c :: cs => encodeCell c ++ ',' :: encodeLine cs

/-! ## Market name and request-path item derivation -/

/-- JS truthiness of an optional string (`undefined`/`null`/`""` are falsy). -/
def truthyStr (x : Option String) : Bool :=
  match x with
  | none => false
  | some s => !(s = "")

/-- Model of `toMarketName` of the persistent variant (part_000 lines
325-330): coalesce falsy to `""`, trim, and append `" (wear)"` when the
trimmed wear is non-empty. -/
def toMarketName (itemName wear : Option String) : String :=
  let n := jsTrim ((if truthyStr itemName then itemName.getD "" else ""))
  let w := jsTrim ((if truthyStr wear then wear.getD "" else ""))
  if w = "" then n else n ++ " (" ++ w ++ ")"

/-- JS `r[i]` on an array of strings: `undefined` out of range. -/
def jsIndex (r : List String) (i : ℕ) : Option String :=
  r.get? i

/-- One normalized request-path item (src/server.js lines 250-257). -/
structure SheetItem where
  row : List String
  name : String
  wear : Option String
  marketName : String
deriving DecidableEq, Repr

/-- Model of the request-path item derivation (src/server.js lines
250-257): drop the header row, keep body rows with a truthy name cell,
and build the market name from name and wear.  The in-memory variant's
`toMarketName` (lines 213-218) returns `itemName` untrimmed when the wear
is falsy, and trims both otherwise; rows reaching it have a truthy name. -/
def itemsFromRows (rows : List (List String)) : List SheetItem :=
  ((rows.drop 1).filter (fun r => truthyStr (jsIndex r 0))).map (fun r =>
    let name := (jsIndex r 0).getD ""
    let wear := jsIndex r 1
    { row := r
      name := name
      wear := wear
      marketName :=
        if truthyStr wear then
          jsTrim name ++ " (" ++ jsTrim (wear.getD "") ++ ")"
        else name })

/-! ## Image size upgrading

Two variants exist.  `src/server.js` lines 60-63 replaces an anchored
match `/\/\d+fx\d+f$/` (first leftmost match ending at the end of the
string); the persistent variant (part_000 lines 371-375) replaces every
match of `/\/\d+fx\d+f/g`.  Both substitute `"/360fx360f"`. -/

/-- Recognize the reversal of a suffix of the form `/digits+ f x digits+ f`
(reversed: `f digits+ x f digits+ /`), returning the reversed remaining
prefix.  The pattern contains no `/`, so an anchored match necessarily
starts at the last `/` of the string, making this decomposition the
unique regex match of `/\/\d+fx\d+f$/`. -/
def matchSizeTokenRev (l : List Char) : Option (List Char) :=
  match l with
  | 'f' :: r1 =>
    match r1.takeWhile Char.isDigit, r1.dropWhile Char.isDigit with
    | [], _ => none
    | _ :: _, 'x' :: 'f' :: r3 =>
      match r3.takeWhile Char.isDigit, r3.dropWhile Char.isDigit with
      | [], _ => none
      | _ :: _, '/' :: rest => some rest
      | _, _ => none
    | _, _ => none
  | _ => none

/-- Model of `upgradeSteamImageSize` of src/server.js (lines 60-63):
`String(url).replace(/\/\d+fx\d+f$/, "/360fx360f")` (a falsy url is
returned unchanged, which coincides with the no-match case for `""`). -/
def upgradeSteamImageSize (url : String) : String :=
  match matchSizeTokenRev url.data.reverse with
  | some rest => String.mk (rest.reverse ++ "/360fx360f".data)
  | none => url

/-- Forward match of `\d+fx\d+f` at the head of the list (greedy `\d+`,
which is unambiguous because a digit run cannot contain `f`), returning
the remainder after the match. -/
def matchSizeTokenFwd (l : List Char) : Option (List Char) :=
  match l.takeWhile Char.isDigit, l.dropWhile Char.isDigit with
  | [], _ => none
  | _ :: _, 'f' :: 'x' :: r2 =>
    match r2.takeWhile Char.isDigit, r2.dropWhile Char.isDigit with
    | [], _ => none
    | _ :: _, 'f' :: r4 => some r4
    | _, _ => none
  | _, _ => none

/-- Global scan of `url.replace(/\/\d+fx\d+f/g, "/360fx360f")` (persistent
variant, part_000 lines 371-375): the string is scanned left to right; at
each `/` a match of `\d+fx\d+f` is attempted on the remainder (the pattern
starts with `/`, so no other position can start a match); on success the
match is replaced and scanning resumes after it. -/
def scanG : List Char → List Char
  | [] => []
  | c :: rest =>
    if c = '/' then
      match h : matchSizeTokenFwd rest with
      | some r4 => '/' :: ("360fx360f".data ++ scanG r4)
      | none => c :: scanG rest
    else c :: scanG rest
termination_by l => l.length
decreasing_by
  · have e0 := congrArg List.length (List.takeWhile_append_dropWhile (p := Char.isDigit) (l := cs))
    simp only [matchSizeTokenFwd] at h
    split at h
    · exact absurd h (by simp)
    · rename_i hd tl r2 heq1 heq2
      rw [heq1, heq2] at e0
      have e2 := congrArg List.length (List.takeWhile_append_dropWhile (p := Char.isDigit) (l := r2))
      split at h
      · exact absurd h (by simp)
      · rename_i hd2 tl2 r4x heq3 heq4
        rw [heq3, heq4] at e2
        injection h with h'
        subst h'
        simp only [List.length_append, List.length_cons] at e0 e2 ⊢
        omega
      · exact absurd h (by simp)
    · exact absurd h (by simp)
  · simp
  · simp

/-- Model of `upgradeSteamImageSize` of the persistent variant (part_000
lines 371-375): global replacement of every `/\d+fx\d+f` token. -/
def upgradeSteamImageSizeG (url : String) : String :=
  String.mk (scanG url.data)

/-! ## TTL image cache (in-memory variants)

Embedding of `imageCache` / `cacheGet` / `cacheSet` (src/server.js lines
17-41).  The map is an association list keyed by market name; `cacheGet`
on an expired entry deletes it and returns `null`; on a fresh entry it
returns the stored `imageUrl`, which may itself be `null`. -/

/-- One image-cache entry: `val: { imageUrl, ts }`. -/
structure CacheEntry where
  imageUrl : Option String
  ts : ℕ
deriving DecidableEq, Repr

/-- The in-memory image cache (`Map` keyed by market name). -/
abbrev ImageCache := List (String × CacheEntry)

/-- Image TTL of src/server.js (24 hours in milliseconds). -/
def CACHE_TTL_MS : ℕ := 24 * 60 * 60 * 1000

/-- Model of `cacheGet` (src/server.js lines 29-37) returning both the
read value and the cache after the read (eviction of an expired entry is
a side effect of the read).  `none` as first component models the JS
`null` returned both for a missing entry and for a fresh entry whose
stored `imageUrl` is `null`. -/
def cacheGetPair (c : ImageCache) (key : String) (now : ℕ) : Option String × ImageCache :=
  match List.lookup key c with
  | none => (none, c)
  | some v =>
    if CACHE_TTL_MS < now - v.ts then (none, c.filter (fun p => !(p.1 = key)))
    else (v.imageUrl, c)

/-- The value read by `cacheGet`. -/
def cacheGet (c : ImageCache) (key : String) (now : ℕ) : Option String :=
  (cacheGetPair c key now).1

/-- Model of `cacheSet` (src/server.js lines 39-41). -/
def cacheSet (c : ImageCache) (key : String) (imageUrl : Option String) (now : ℕ) : ImageCache :=
  (key, { imageUrl := imageUrl, ts := now }) :: c.filter (fun p => !(p.1 = key))

/-- First observable action of `fetchSteamImage` (src/server.js lines
111-117): return the cached value when the guard
`cached !== null && cached !== undefined` passes, otherwise issue the
upstream search request. -/
inductive FetchAction where
  | fromCache (url : String)
  | upstreamRequest
deriving DecidableEq, Repr

/-- The cache-consultation step of `fetchSteamImage` (src/server.js lines
112-114): only a non-null cached value short-circuits; a cached `null`
falls through to the upstream fetch.  The in-memory part_000 variant
(lines 90-91, `if (cached) return cached`) falls through on even more
values (any falsy string), so it issues the upstream request in every
case this model does. -/
def fetchSteamImageAction (c : ImageCache) (key : String) (now : ℕ) : FetchAction :=
  match cacheGet c key now with
  | some url => FetchAction.fromCache url
  | none => FetchAction.upstreamRequest

/-! ## Strategy A: stack traversal of the `assets` object graph

`fetchSteamImage` attempts to locate an icon token by a stack-based
traversal of the parsed JSON response.  Three variants exist:
`src/server.js` lines 137-154 (checks `icon_url_large` before `icon_url`,
with JS truthiness guards), part_000 lines 117-135 (the in-memory
variant: checks `icon_url` before `icon_url_large`), and part_000 lines
397-412 (the persistent variant: `icon_url_large` first, with bare
`typeof` guards). -/

/-- A JSON value as produced by `resp.json()`. -/
inductive JVal where
  | jnull
  | jbool (b : Bool)
  | jnum (q : ℚ)
  | jstr (s : String)
  | jarr (elts : List JVal)
  | jobj (fields : List (String × JVal))
deriving Repr

mutual

/-- Structural size of a JSON value (termination measure for the stack
traversal: the children of a node are jointly smaller than the node). -/
def JVal.size : JVal → ℕ
  | .jnull => 1
  | .jbool _ => 1
  | .jnum _ => 1
  | .jstr _ => 1
  | .jarr l => 1 + JVal.sizeList l
  | .jobj fs => 1 + JVal.sizeFields fs

/-- Total size of a list of JSON values. -/
def JVal.sizeList : List JVal → ℕ
  | [] => 0
  | v :: vs => JVal.size v + JVal.sizeList vs

/-- Total size of the values of an object's field list. -/
def JVal.sizeFields : List (String × JVal) → ℕ
  | [] => 0
  | (_, v) :: fs => JVal.size v + JVal.sizeFields fs

end

/-- Field access guarded by JS truthiness and `typeof x === "string"`
(`node.f && typeof node.f === "string"`): succeeds exactly on a non-empty
string field. -/
def truthyStrField (fs : List (String × JVal)) (k : String) : Option String :=
  match List.lookup k fs with
  | some (.jstr s) => if s = "" then none else some s
  | _ => none

/-- Field access guarded only by `typeof x === "string"` (persistent
variant): succeeds on any string field, including the empty string. -/
def strField (fs : List (String × JVal)) (k : String) : Option String :=
  match List.lookup k fs with
  | some (.jstr s) => some s
  | _ => none

/-- The per-node field check of src/server.js (lines 142-149):
`icon_url_large` first, then `icon_url`, both with truthiness guards. -/
def checkNodeSrv (fs : List (String × JVal)) : Option String :=
  match truthyStrField fs "icon_url_large" with
  | some s => some s
  | none => truthyStrField fs "icon_url"

/-- The per-node field check of the in-memory part_000 variant (lines
123-130): `icon_url` first, then `icon_url_large`. -/
def checkNodeMem (fs : List (String × JVal)) : Option String :=
  match truthyStrField fs "icon_url" with
  | some s => some s
  | none => truthyStrField fs "icon_url_large"

/-- The per-node field check of the persistent variant (part_000 lines
401-408): `icon_url_large` first, then `icon_url`, with bare `typeof`
guards. -/
def checkNodePers (fs : List (String × JVal)) : Option String :=
  match strField fs "icon_url_large" with
  | some s => some s
  | none => strField fs "icon_url"

/-- The `while (stack.length)` loop of Strategy A, parametrized by the
per-node check.  `stack.pop()` takes the head; for an object (JS arrays
included: `typeof` is `"object"` and `Object.keys` enumerates indices)
whose check fails, the field values are pushed in key order, so the
most recently pushed (the last field) is visited first; scalars and
`null` are skipped. -/
def findIconAux (check : List (String × JVal) → Option String) : List JVal → Option String
  | [] => none
  | JVal.jobj fs :: rest =>
    match check fs with
    | some s => some s
    | none => findIconAux check ((fs.map Prod.snd).reverse ++ rest)
  | JVal.jarr l :: rest => findIconAux check (l.reverse ++ rest)
  | _ :: rest => findIconAux check rest
termination_by st => JVal.sizeList st
decreasing_by
  · have happ : ∀ a b : List JVal, JVal.sizeList (a ++ b) = JVal.sizeList a + JVal.sizeList b := by
      intro a b
      induction a with
      | nil => simp [JVal.sizeList]
      | cons x xs ih => simp [JVal.sizeList, ih]; omega
    have hrev : ∀ a : List JVal, JVal.sizeList a.reverse = JVal.sizeList a := by
      intro a
      induction a with
      | nil => rfl
      | cons x xs ih => simp [JVal.sizeList, happ, ih]; omega
    have hmap : ∀ fs : List (String × JVal), JVal.sizeList (fs.map Prod.snd) = JVal.sizeFields fs := by
      intro fs
      induction fs with
      | nil => rfl
      | cons p ps ih => cases p; simp [JVal.sizeList, JVal.sizeFields, ih]
    simp [JVal.sizeList, JVal.size, happ, hrev, hmap]
  · have happ : ∀ a b : List JVal, JVal.sizeList (a ++ b) = JVal.sizeList a + JVal.sizeList b := by
      intro a b
      induction a with
      | nil => simp [JVal.sizeList]
      | cons x xs ih => simp [JVal.sizeList, ih]; omega
    have hrev : ∀ a : List JVal, JVal.sizeList a.reverse = JVal.sizeList a := by
      intro a
      induction a with
      | nil => rfl
      | cons x xs ih => simp [JVal.sizeList, happ, ih]; omega
    simp [JVal.sizeList, JVal.size, happ, hrev]
  · rename_i v
    have hpos : 0 < JVal.size v := by
      cases v <;> simp [JVal.size]
    simp [JVal.sizeList]
    omega

/-- Strategy A of src/server.js `fetchSteamImage` (lines 132-154): start
the stack with the `assets` value. -/
def strategyASrv (assets : JVal) : Option String :=
  findIconAux checkNodeSrv [assets]

/-- Strategy A of the in-memory part_000 `fetchSteamImage` (lines
110-135). -/
def strategyAMem (assets : JVal) : Option String :=
  findIconAux checkNodeMem [assets]

/-- Strategy A of the persistent-variant `fetchSteamImage` (part_000
lines 392-412). -/
def strategyAPers (assets : JVal) : Option String :=
  findIconAux checkNodePers [assets]

/-! ## Persistent variant: item documents, staleness, refresh, upsert -/

/-- A parsed `M/D/YYYY` sheet date (raw components of
`new Date(yy, mm-1, dd)`; calendar normalization is irrelevant here). -/
structure MDYDate where
  month : ℕ
  day : ℕ
  year : ℕ
deriving DecidableEq, Repr

/-- Model of `parseMDYDate` (part_000 lines 347-358): falsy input is
`null`; otherwise trim and match `^(\d-digits 1-2)/(1-2)/(4)$`; a zero
month, day or year is rejected (`if (!mm || !dd || !yy) return null`). -/
def parseMDYDate (x : Option String) : Option MDYDate :=
  match x with
  | none => none
  | some s =>
    if s = "" then none
    else
      let t := (jsTrim s).data
      let m1 := t.takeWhile Char.isDigit
      let r1 := t.dropWhile Char.isDigit
      if m1.length < 1 || 2 < m1.length then none
      else
        match r1 with
        | '/' :: r2 =>
          let m2 := r2.takeWhile Char.isDigit
          let r3 := r2.dropWhile Char.isDigit
          if m2.length < 1 || 2 < m2.length then none
          else
            match r3 with
            | '/' :: r4 =>
              let m3 := r4.takeWhile Char.isDigit
              let r5 := r4.dropWhile Char.isDigit
              if m3.length = 4 && r5 = [] then
                if natVal m1 = 0 || natVal m2 = 0 || natVal m3 = 0 then none
                else some { month := natVal m1, day := natVal m2, year := natVal m3 }
              else none
            | _ => none
        | _ => none

/-- The Mongo `Item` document fields this subsystem reads and writes
(part_000 lines 269-298).  Dates are `ℕ` milliseconds. -/
structure ItemDoc where
  marketName : String
  name : String
  wear : Option String
  sheetPrice : Option ℚ
  floatValue : Option ℚ
  paintSeed : Option ℤ
  sheetTimestamp : Option MDYDate
  row : List String
  lastSeenAt : ℕ
  imageUrl : Option String
  steamLowest : Option ℚ
  steamMedian : Option ℚ
  steamVolume : Option ℚ
  imageUpdatedAt : Option ℕ
  steamUpdatedAt : Option ℕ
  imageError : Option String
  steamError : Option String
deriving DecidableEq, Repr

/-- Price TTL (30 minutes, part_000 line 439 and src/server.js line 23). -/
def PRICE_TTL_MS : ℕ := 30 * 60 * 1000

/-- Image TTL of the persistent variant (7 days, part_000 line 440). -/
def IMAGE_TTL_MS : ℕ := 7 * 24 * 60 * 60 * 1000

/-- Model of `isStale` (part_000 lines 445-448): a missing timestamp is
always stale; otherwise stale iff `now - t > ttl`. -/
def isStale (dateObj : Option ℕ) (ttlMs now : ℕ) : Bool :=
  match dateObj with
  | none => true
  | some t => ttlMs < now - t

/-- The image-refresh condition of `refreshOne` (part_000 lines 459-462):
`isStale(doc.imageUpdatedAt, IMAGE_TTL_MS) || !doc.imageUrl`. -/
def imageNeedsRefresh (doc : ItemDoc) (now : ℕ) : Bool :=
  isStale doc.imageUpdatedAt IMAGE_TTL_MS now || !truthyStr doc.imageUrl

/-- The price-refresh condition of `refreshOne` (part_000 line 478). -/
def priceNeedsRefresh (doc : ItemDoc) (now : ℕ) : Bool :=
  isStale doc.steamUpdatedAt PRICE_TTL_MS now

/-- Result of `fetchSteamPrice` in the persistent variant. -/
structure SteamPrice where
  lowest : Option ℚ
  median : Option ℚ
  volume : Option ℚ
deriving DecidableEq, Repr

/-- The flags argument of `refreshOne`. -/
structure RefreshFlags where
  refreshPrice : Bool
  refreshImage : Bool
deriving DecidableEq, Repr

/-- The store writes of one `refreshOne` body (part_000 lines 455-499)
applied to the single record it addresses.  `doc` is the record read by
`findOne`; both refresh conditions are evaluated on it.  The outcomes of
the two upstream resolutions are passed in as `Except` values (an
exception carries the stringified error).  A successful image resolution
writes `imageUrl`, `imageUpdatedAt` and clears `imageError`; a failed one
writes only `imageError`.  Symmetrically for the price fields. -/
def refreshOneRun (doc : ItemDoc) (flags : RefreshFlags)
    (imgRes : Except String (Option String)) (priceRes : Except String SteamPrice)
    (now nowImg nowPrice : ℕ) : ItemDoc :=
  let d1 :=
    if flags.refreshImage && imageNeedsRefresh doc now then
      match imgRes with
      | Except.ok u => { doc with imageUrl := u, imageUpdatedAt := some nowImg, imageError := none }
      | Except.error e => { doc with imageError := some e }
    else doc
  if flags.refreshPrice && priceNeedsRefresh doc now then
    match priceRes with
    | Except.ok p =>
      { d1 with steamLowest := p.lowest, steamMedian := p.median, steamVolume := p.volume,
                steamUpdatedAt := some nowPrice, steamError := none }
    | Except.error e => { d1 with steamError := some e }
  else d1

/-! ## In-flight guard (part_000 lines 443 and 450-452, 500-502)

`refreshOne` begins with `if (inFlight.has(marketName)) return;
inFlight.add(marketName);` — two synchronous statements with no `await`
between them, hence atomic under Node's single-threaded scheduler — and
removes the identifier in a `finally` on completion.  `refreshOneEnter`
is that atomic prologue: the returned `Bool` says whether this invocation
proceeds to the resolution work. -/

/-- The atomic check-and-add prologue of `refreshOne`. -/
def refreshOneEnter (inFlight : List String) (k : String) : Bool × List String :=
  if k ∈ inFlight then (false, inFlight) else (true, k :: inFlight)

/-- The `finally` epilogue of `refreshOne`: `inFlight.delete(marketName)`. -/
def refreshOneExit (inFlight : List String) (k : String) : List String :=
  inFlight.erase k

/-! ## Sheet upsert (part_000 lines 543-609) -/

/-- The `updateOne ... upsert: true` operation built by `upsertFromSheet`
for one body row, applied to the record currently stored under the row's
market name (`none` = no such record).  A row with a falsy name cell is
skipped (`if (!name) continue`).  On a match only the `$set` fields
(sheet-derived fields and `lastSeenAt`) are written; the `$setOnInsert`
enrichment fields take effect only when the record is first inserted. -/
def upsertRow (old : Option ItemDoc) (r : List String) (now : ℕ) : Option ItemDoc :=
  let name := jsIndex r 0
  if !truthyStr name then old
  else
    let wear := jsIndex r 1
    let marketName := toMarketName name wear
    let floatValue := numOrNull (jsIndex r 2)
    let paintSeed := intOrNull (jsIndex r 3)
    let sheetPrice := numOrNull (jsIndex r 4)
    let sheetTimestamp := parseMDYDate (jsIndex r 7)
    match old with
    | some d =>
      some { d with marketName := marketName, name := name.getD "", wear := wear,
                    sheetPrice := sheetPrice, floatValue := floatValue,
                    paintSeed := paintSeed, sheetTimestamp := sheetTimestamp,
                    row := r, lastSeenAt := now }
    | none =>
      some { marketName := marketName, name := name.getD "", wear := wear,
             sheetPrice := sheetPrice, floatValue := floatValue,
             paintSeed := paintSeed, sheetTimestamp := sheetTimestamp,
             row := r, lastSeenAt := now,
             imageUrl := none, steamLowest := none, steamMedian := none,
             steamVolume := none, imageUpdatedAt := none, steamUpdatedAt := none,
             imageError := none, steamError := none }

/-! ## Bounded-concurrency fan-out (`mapLimit`, src/server.js lines 94-108)

`mapLimit` allocates `results = new Array(N)`, a shared cursor `idx = 0`,
and `Math.min(limit, N)` identical workers.  Each worker loops: read and
post-increment the cursor (`const my = idx++`, one synchronous step),
`await fn(items[my], my)`, store the result into `results[my]`, repeat;
it exits when it observes `idx >= N`.  Because Node suspends only at
`await`, the cursor read-and-increment is atomic, but the write of slot
`my` happens later, interleaved arbitrarily with other workers.  The
small-step relation below has exactly these three atomic transitions, so
its reachable terminal states cover every completion order. -/

/-- Status of one `mapLimit` worker: ready to test the loop condition,
computing `fn` for index `j`, or exited. -/
inductive WStatus where
  | ready
  | comp (j : ℕ)
  | done
deriving DecidableEq, Repr

/-- Scheduler-visible state of one `mapLimit` call: the shared cursor,
the results array, a ghost count of how many times each index was handed
to `fn`, and the worker pool. -/
structure MapLimitState (β : Type) where
  idx : ℕ
  res : List (Option β)
  grabs : List ℕ
  ws : List WStatus
deriving DecidableEq, Repr

/-- Initial state of `mapLimit` over `N` items with limit `M`:
`new Array(N)` of empty slots, cursor `0`, and `Math.min(M, N)` ready
workers. -/
def mapLimitInit (β : Type) (N M : ℕ) : MapLimitState β :=
  { idx := 0
    res := List.replicate N none
    grabs := List.replicate N 0
    ws := List.replicate (min M N) WStatus.ready }

/-- One atomic step of the `mapLimit` workers; `f j` is the value
`fn(items[j], j)` eventually resolves to. -/
inductive MapLimitStep (N : ℕ) {β : Type} (f : ℕ → β) :
    MapLimitState β → MapLimitState β → Prop
  | grab (s : MapLimitState β) (p : ℕ)
      (hp : s.ws.get? p = some WStatus.ready) (hidx : s.idx < N) :
      MapLimitStep N f s
        { idx := s.idx + 1
          res := s.res
          grabs := s.grabs.set s.idx (s.grabs.getD s.idx 0 + 1)
          ws := s.ws.set p (WStatus.comp s.idx) }
  | write (s : MapLimitState β) (p j : ℕ)
      (hp : s.ws.get? p = some (WStatus.comp j)) :
      MapLimitStep N f s
        { s with res := s.res.set j (some (f j)), ws := s.ws.set p WStatus.ready }
  | exit (s : MapLimitState β) (p : ℕ)
      (hp : s.ws.get? p = some WStatus.ready) (hidx : N ≤ s.idx) :
      MapLimitStep N f s { s with ws := s.ws.set p WStatus.done }

/-- Any interleaving of worker steps. -/
def MapLimitReaches (N : ℕ) {β : Type} (f : ℕ → β)
    (s t : MapLimitState β) : Prop :=
  Relation.ReflTransGen (MapLimitStep N f) s t

/-- The call returns when `Promise.all(workers)` resolves: every worker
has exited its loop. -/
def MapLimitTerminal {β : Type} (s : MapLimitState β) : Prop :=
  ∀ w ∈ s.ws, w = WStatus.done

/-- Concrete image cache holding a fresh entry whose stored value is a
confirmed-negative `null` (as written by `cacheSet(marketName, null)`). -/
def c1CexCache : ImageCache :=
  [("AK-47 | Slate (Well-Worn)", { imageUrl := none, ts := 0 })]

/-- Concrete `assets` node carrying both `icon_url` and `icon_url_large`. -/
def c5CexAssets : JVal :=
  JVal.jobj [("icon_url", JVal.jstr "small-token"), ("icon_url_large", JVal.jstr "large-token")]

/-- Concrete stored document with fresh-looking enrichment values, used to
observe which fields a refresh or upsert touches. -/
def c4Doc : ItemDoc :=
  { marketName := "AK-47 | Slate (Well-Worn)", name := "AK-47 | Slate", wear := some "Well-Worn",
    sheetPrice := some 10, floatValue := none, paintSeed := none, sheetTimestamp := none,
    row := [], lastSeenAt := 0,
    imageUrl := some "http://old-img", steamLowest := some 3, steamMedian := some 4,
    steamVolume := some 5, imageUpdatedAt := some 1, steamUpdatedAt := some 2,
    imageError := none, steamError := none }

/-- Concrete stored document with populated enrichment fields, to observe
what an upsert preserves. -/
def c9Doc : ItemDoc :=
  { marketName := "AK-47 | Redline (Field-Tested)", name := "AK-47 | Redline",
    wear := some "Field-Tested",
    sheetPrice := some 9, floatValue := some 1, paintSeed := some 5, sheetTimestamp := none,
    row := ["AK-47 | Redline", "Field-Tested"], lastSeenAt := 3,
    imageUrl := some "http://img-keep", steamLowest := some 11, steamMedian := some 12,
    steamVolume := some 13, imageUpdatedAt := some 14, steamUpdatedAt := some 15,
    imageError := some "old image error", steamError := some "old steam error" }

/-- Concrete sheet body row in the column layout of the sheet. -/
def c9Row : List String :=
  ["AK-47 | Redline", "Field-Tested", "0.21", "123", "10.50", "", "", "11/2/2025"]

/-- Invariant of the `mapLimit` worker-pool semantics: array lengths are
fixed; the cursor never passes `N`; every computing worker holds an index
below the cursor, distinct workers hold distinct indices; a worker can
only have exited once the cursor reached `N`; every index below the
cursor was handed to `fn` exactly once and either its slot is filled with
`f i` or exactly one worker is still computing it; indices at or above
the cursor are untouched. -/
def MLInv (N M : ℕ) {β : Type} (f : ℕ → β) (s : MapLimitState β) : Prop :=
  s.res.length = N ∧ s.grabs.length = N ∧ s.ws.length = min M N ∧ s.idx ≤ N ∧
  (∀ p j, s.ws.get? p = some (WStatus.comp j) → j < s.idx) ∧
  (∀ p q j, s.ws.get? p = some (WStatus.comp j) → s.ws.get? q = some (WStatus.comp j) → p = q) ∧
  (∀ p, s.ws.get? p = some WStatus.done → N ≤ s.idx) ∧
  (∀ i, i < s.idx → s.grabs.get? i = some 1 ∧
    (s.res.get? i = some (some (f i)) ∨ ∃ p, s.ws.get? p = some (WStatus.comp i))) ∧
  (∀ i, s.idx ≤ i → i < N → s.grabs.get? i = some 0 ∧ s.res.get? i = some none)

/-- Intermediate state of a one-item, one-worker `mapLimit` run: the
worker grabbed index 0. -/
def mlWitS1 : MapLimitState ℕ :=
  { idx := 1, res := [none], grabs := [1], ws := [WStatus.comp 0] }

/-- Intermediate state: the worker wrote slot 0. -/
def mlWitS2 : MapLimitState ℕ :=
  { idx := 1, res := [some 7], grabs := [1], ws := [WStatus.ready] }

/-- Terminal state: the worker observed the exhausted cursor and exited. -/
def mlWitFinal : MapLimitState ℕ :=
  { idx := 1, res := [some 7], grabs := [1], ws := [WStatus.done] }

/-! ## Theorems -/

/-- Claim C1, counterexample: the image cache holds an unexpired entry
whose value is `null` (a confirmed negative lookup at `ts = 0`, read at
`now = 1000`, well within the 24h TTL), yet `fetchSteamImage` does not
return from the cache: it issues a new upstream search request, because
`cacheGet` returns `null` both for an absent entry and for a cached
`null`, and the guard on src/server.js line 114 only short-circuits on a
non-null value. -/
theorem cached_null_reaches_upstream_cex :
    List.lookup "AK-47 | Slate (Well-Worn)" c1CexCache =
      some { imageUrl := none, ts := 0 } ∧
    1000 - 0 ≤ CACHE_TTL_MS ∧
    fetchSteamImageAction c1CexCache "AK-47 | Slate (Well-Worn)" 1000 =
      FetchAction.upstreamRequest := by
  refine ⟨rfl, by norm_num [CACHE_TTL_MS], ?_⟩
  rfl

/-- Claim C1, amended: in the in-memory variants an image-cache entry
holding `null` does not suppress the upstream query — whenever the entry
for a key stores `imageUrl = null`, `fetchSteamImage` issues a new
upstream search request (first conjunct); only a cached non-null URL is
returned without contacting upstream (second conjunct). -/
theorem image_cache_null_vs_nonnull (c : ImageCache) (k : String) (now : ℕ) :
    (∀ v, List.lookup k c = some v → v.imageUrl = none →
      fetchSteamImageAction c k now = FetchAction.upstreamRequest) ∧
    (∀ url, cacheGet c k now = some url →
      fetchSteamImageAction c k now = FetchAction.fromCache url) := by
  constructor
  · intro v hv hnull
    unfold fetchSteamImageAction cacheGet cacheGetPair
    rw [hv]
    by_cases h : CACHE_TTL_MS < now - v.ts <;> simp [h, hnull]
  · intro url hurl
    unfold fetchSteamImageAction
    rw [hurl]

/-- Witness for the amended claim C1, at a cache holding a fresh `null`
entry and at a cache holding a fresh non-null URL. -/
theorem image_cache_null_vs_nonnull_witness :
    fetchSteamImageAction c1CexCache "AK-47 | Slate (Well-Worn)" 1000 =
      FetchAction.upstreamRequest ∧
    fetchSteamImageAction [("k", { imageUrl := some "http://img", ts := 0 })] "k" 5 =
      FetchAction.fromCache "http://img" := by
  constructor
  · exact (image_cache_null_vs_nonnull c1CexCache "AK-47 | Slate (Well-Worn)" 1000).1
      { imageUrl := none, ts := 0 } rfl rfl
  · exact (image_cache_null_vs_nonnull
      [("k", { imageUrl := some "http://img", ts := 0 })] "k" 5).2 "http://img" rfl

/-- Claim C2: the in-flight guard of `refreshOne` deduplicates concurrent
refreshes.  The guard prologue (`has` then `add`, with no `await` between
them) is atomic under Node's scheduler.  Starting from any in-flight set
not containing the identifier, the first trigger passes the guard
(performs the upstream resolution and store writes); a second trigger
entering while the first is still in flight is refused and returns
immediately; and the first trigger's `finally` restores the set, leaving
exactly one performer. -/
theorem inflight_guard_dedup (s : List String) (k : String) (h : k ∉ s) :
    (refreshOneEnter s k).1 = true ∧
    (refreshOneEnter (refreshOneEnter s k).2 k).1 = false ∧
    refreshOneExit (refreshOneEnter s k).2 k = s := by
  unfold refreshOneEnter refreshOneExit
  simp [h]

/-- Witness for claim C2 at the empty in-flight set and a concrete
market identifier. -/
theorem inflight_guard_dedup_witness :
    (refreshOneEnter [] "AK-47 | Slate (Well-Worn)").1 = true ∧
    (refreshOneEnter (refreshOneEnter [] "AK-47 | Slate (Well-Worn)").2
      "AK-47 | Slate (Well-Worn)").1 = false ∧
    refreshOneExit (refreshOneEnter [] "AK-47 | Slate (Well-Worn)").2
      "AK-47 | Slate (Well-Worn)" = [] :=
  inflight_guard_dedup [] "AK-47 | Slate (Well-Worn)" (by simp)

/-- Claim C6: numeric-parse evaluation at the claimed inputs across the
three parsers.  `numOrNull` (persistent variant) and `moneyToNumber`
behave as the claim states (`"$12.50"` to `12.50`, `""` and `"-"` to
absent), but the inline sheet-price parse of the request path
(src/server.js lines 269-273) maps the empty cell to `some 0`, not to
absent: JS `Number("")` is `0` and the guard that `numOrNull` has
(`if (!s0) return null`) is missing there, so the claim's "never to 0"
fails on the request path. -/
theorem sheet_price_empty_is_zero_on_request_path :
    sheetPriceOfCell (some "") = some 0 ∧
    numOrNull (some "") = none ∧
    moneyToNumber (some "") = none ∧
    sheetPriceOfCell (some "$12.50") = some (125 / 10) ∧
    numOrNull (some "$12.50") = some (125 / 10) ∧
    sheetPriceOfCell (some "-") = none ∧
    numOrNull (some "-") = none := by
  have h3 : jsNumber ['1', '2', '.', '5', '0']
      = some (1 * ((natVal ['1', '2'] : ℚ) + fracVal ['5', '0'])) := rfl
  have h4 : (natVal ['1', '2'] : ℚ) = 12 := by
    rw [show natVal ['1', '2'] = 12 from rfl]
    norm_num
  have h5 : fracVal ['5', '0'] = (((5 : ℕ) : ℚ) + (((0 : ℕ) : ℚ) + 0) / 10) / 10 := rfl
  refine ⟨by decide, by decide, by decide, ?_, ?_, by decide, by decide⟩
  · rw [show sheetPriceOfCell (some "$12.50") = jsNumber ['1', '2', '.', '5', '0'] from rfl,
      h3, h4, h5]
    norm_num
  · rw [show numOrNull (some "$12.50") = jsNumber ['1', '2', '.', '5', '0'] from rfl,
      h3, h4, h5]
    norm_num

/-- Claim C7, counterexample: parsing the empty CSV input does not yield
zero rows — JS `"".split(/\r?\n/)` is `[""]`, so `parseCsv("")` is one
row holding one empty cell. -/
theorem parseCsv_empty_cex :
    parseCsv "" = [[""]] ∧ parseCsv "" ≠ [] := by
  decide

/-- Claim C7, amended: parsing the empty CSV input is not an error and
yields a single row holding one empty cell (not zero rows); that lone
row is consumed as the header by the request path, so the derived item
list is empty. -/
theorem parseCsv_empty_one_blank_row :
    parseCsv "" = [[""]] ∧ itemsFromRows (parseCsv "") = [] := by
  decide

/-- Claim C5, counterexample: at a visited node carrying both fields,
the in-memory part_000 variant of `fetchSteamImage` (lines 117-135)
takes `icon_url`, not `icon_url_large`: its per-node check tests
`icon_url` first, contradicting the claim for that cited variant (the
src/server.js traversal on the same node does take `icon_url_large`). -/
theorem strategyA_inmem_icon_url_wins_cex :
    strategyAMem c5CexAssets = some "small-token" ∧
    strategyASrv c5CexAssets = some "large-token" ∧
    "small-token" ≠ "large-token" := by
  refine ⟨?_, ?_, by decide⟩ <;>
    simp [strategyAMem, strategyASrv, findIconAux, checkNodeMem, checkNodeSrv,
      truthyStrField, c5CexAssets, List.lookup]

/-- Claim C5, amended: in the src/server.js and persistent variants of
Strategy A, the stack-based traversal stops at the first matching node
and prefers `icon_url_large` over `icon_url` there: whenever the node on
top of the stack carries a non-empty string `icon_url_large`, its value
is returned (both variants), and when `icon_url_large` is absent a
non-empty string `icon_url` is returned (fallback); the in-memory
part_000 variant instead checks `icon_url` first, so at a node carrying
both fields the `icon_url` value wins there. -/
theorem strategyA_large_first (fs : List (String × JVal)) (rest : List JVal) :
    (∀ s, List.lookup "icon_url_large" fs = some (JVal.jstr s) → s ≠ "" →
      findIconAux checkNodeSrv (JVal.jobj fs :: rest) = some s ∧
      findIconAux checkNodePers (JVal.jobj fs :: rest) = some s) ∧
    (∀ t, List.lookup "icon_url_large" fs = none →
      List.lookup "icon_url" fs = some (JVal.jstr t) → t ≠ "" →
      findIconAux checkNodeSrv (JVal.jobj fs :: rest) = some t) := by
  constructor
  · intro s hl hs
    constructor <;>
      simp [findIconAux, checkNodeSrv, checkNodePers, truthyStrField, strField, hl, hs]
  · intro t hl hu ht
    simp [findIconAux, checkNodeSrv, truthyStrField, hl, hu, ht]

/-- Witness for the amended claim C5 at a node carrying both fields and
at a node carrying only `icon_url`. -/
theorem strategyA_large_first_witness :
    (findIconAux checkNodeSrv [c5CexAssets] = some "large-token" ∧
     findIconAux checkNodePers [c5CexAssets] = some "large-token") ∧
    findIconAux checkNodeSrv [JVal.jobj [("icon_url", JVal.jstr "tokA")]] = some "tokA" := by
  constructor
  · exact (strategyA_large_first
      [("icon_url", JVal.jstr "small-token"), ("icon_url_large", JVal.jstr "large-token")] []).1
      "large-token" rfl (by decide)
  · exact (strategyA_large_first [("icon_url", JVal.jstr "tokA")] []).2 "tokA" rfl rfl (by decide)

/-- Claim C4: failure frame of `refreshOne` in the persistent variant.
Under the image- and price-refresh conditions (evaluated on the document
read by `findOne`): when the image resolution fails, only `imageError`
is written while `imageUrl` and `imageUpdatedAt` keep their stored
values; when the price resolution fails, only `steamError` is written
while `steamLowest`, `steamMedian`, `steamVolume` and `steamUpdatedAt`
keep their stored values; and an image failure does not prevent the
price refresh of the same record (its success writes all price fields
and clears `steamError`), nor does a price failure prevent the image
refresh. -/
theorem refreshOne_failure_frame (doc : ItemDoc) (fl : RefreshFlags)
    (e ep : String) (u : Option String) (p : SteamPrice) (now nI nP : ℕ)
    (hic : (fl.refreshImage && imageNeedsRefresh doc now) = true)
    (hpc : (fl.refreshPrice && priceNeedsRefresh doc now) = true) :
    ((refreshOneRun doc fl (Except.error e) (Except.error ep) now nI nP).imageUrl = doc.imageUrl ∧
     (refreshOneRun doc fl (Except.error e) (Except.error ep) now nI nP).imageUpdatedAt = doc.imageUpdatedAt ∧
     (refreshOneRun doc fl (Except.error e) (Except.error ep) now nI nP).imageError = some e) ∧
    ((refreshOneRun doc fl (Except.error e) (Except.error ep) now nI nP).steamLowest = doc.steamLowest ∧
     (refreshOneRun doc fl (Except.error e) (Except.error ep) now nI nP).steamMedian = doc.steamMedian ∧
     (refreshOneRun doc fl (Except.error e) (Except.error ep) now nI nP).steamVolume = doc.steamVolume ∧
     (refreshOneRun doc fl (Except.error e) (Except.error ep) now nI nP).steamUpdatedAt = doc.steamUpdatedAt ∧
     (refreshOneRun doc fl (Except.error e) (Except.error ep) now nI nP).steamError = some ep) ∧
    ((refreshOneRun doc fl (Except.error e) (Except.ok p) now nI nP).steamLowest = p.lowest ∧
     (refreshOneRun doc fl (Except.error e) (Except.ok p) now nI nP).steamMedian = p.median ∧
     (refreshOneRun doc fl (Except.error e) (Except.ok p) now nI nP).steamVolume = p.volume ∧
     (refreshOneRun doc fl (Except.error e) (Except.ok p) now nI nP).steamUpdatedAt = some nP ∧
     (refreshOneRun doc fl (Except.error e) (Except.ok p) now nI nP).steamError = none) ∧
    ((refreshOneRun doc fl (Except.ok u) (Except.error ep) now nI nP).imageUrl = u ∧
     (refreshOneRun doc fl (Except.ok u) (Except.error ep) now nI nP).imageUpdatedAt = some nI ∧
     (refreshOneRun doc fl (Except.ok u) (Except.error ep) now nI nP).imageError = none) := by
  unfold refreshOneRun
  simp [hic, hpc]

/-- Witness for claim C4 at a concrete stored document, both resolutions
attempted (image stale beyond the 7-day TTL, price stale beyond 30
minutes at `now` = 10 days). -/
theorem refreshOne_failure_frame_witness :
    ((refreshOneRun c4Doc { refreshPrice := true, refreshImage := true }
        (Except.error "img boom") (Except.error "price boom")
        (10 * 24 * 60 * 60 * 1000) 7 8).imageUrl = c4Doc.imageUrl ∧
     (refreshOneRun c4Doc { refreshPrice := true, refreshImage := true }
        (Except.error "img boom") (Except.error "price boom")
        (10 * 24 * 60 * 60 * 1000) 7 8).imageUpdatedAt = c4Doc.imageUpdatedAt ∧
     (refreshOneRun c4Doc { refreshPrice := true, refreshImage := true }
        (Except.error "img boom") (Except.error "price boom")
        (10 * 24 * 60 * 60 * 1000) 7 8).imageError = some "img boom") ∧
    ((refreshOneRun c4Doc { refreshPrice := true, refreshImage := true }
        (Except.error "img boom") (Except.error "price boom")
        (10 * 24 * 60 * 60 * 1000) 7 8).steamLowest = c4Doc.steamLowest ∧
     (refreshOneRun c4Doc { refreshPrice := true, refreshImage := true }
        (Except.error "img boom") (Except.error "price boom")
        (10 * 24 * 60 * 60 * 1000) 7 8).steamMedian = c4Doc.steamMedian ∧
     (refreshOneRun c4Doc { refreshPrice := true, refreshImage := true }
        (Except.error "img boom") (Except.error "price boom")
        (10 * 24 * 60 * 60 * 1000) 7 8).steamVolume = c4Doc.steamVolume ∧
     (refreshOneRun c4Doc { refreshPrice := true, refreshImage := true }
        (Except.error "img boom") (Except.error "price boom")
        (10 * 24 * 60 * 60 * 1000) 7 8).steamUpdatedAt = c4Doc.steamUpdatedAt ∧
     (refreshOneRun c4Doc { refreshPrice := true, refreshImage := true }
        (Except.error "img boom") (Except.error "price boom")
        (10 * 24 * 60 * 60 * 1000) 7 8).steamError = some "price boom") ∧
    ((refreshOneRun c4Doc { refreshPrice := true, refreshImage := true }
        (Except.error "img boom") (Except.ok { lowest := some 1, median := some 2, volume := some 3 })
        (10 * 24 * 60 * 60 * 1000) 7 8).steamLowest = some 1 ∧
     (refreshOneRun c4Doc { refreshPrice := true, refreshImage := true }
        (Except.error "img boom") (Except.ok { lowest := some 1, median := some 2, volume := some 3 })
        (10 * 24 * 60 * 60 * 1000) 7 8).steamMedian = some 2 ∧
     (refreshOneRun c4Doc { refreshPrice := true, refreshImage := true }
        (Except.error "img boom") (Except.ok { lowest := some 1, median := some 2, volume := some 3 })
        (10 * 24 * 60 * 60 * 1000) 7 8).steamVolume = some 3 ∧
     (refreshOneRun c4Doc { refreshPrice := true, refreshImage := true }
        (Except.error "img boom") (Except.ok { lowest := some 1, median := some 2, volume := some 3 })
        (10 * 24 * 60 * 60 * 1000) 7 8).steamUpdatedAt = some 8 ∧
     (refreshOneRun c4Doc { refreshPrice := true, refreshImage := true }
        (Except.error "img boom") (Except.ok { lowest := some 1, median := some 2, volume := some 3 })
        (10 * 24 * 60 * 60 * 1000) 7 8).steamError = none) ∧
    ((refreshOneRun c4Doc { refreshPrice := true, refreshImage := true }
        (Except.ok (some "http://new-img")) (Except.error "price boom")
        (10 * 24 * 60 * 60 * 1000) 7 8).imageUrl = some "http://new-img" ∧
     (refreshOneRun c4Doc { refreshPrice := true, refreshImage := true }
        (Except.ok (some "http://new-img")) (Except.error "price boom")
        (10 * 24 * 60 * 60 * 1000) 7 8).imageUpdatedAt = some 7 ∧
     (refreshOneRun c4Doc { refreshPrice := true, refreshImage := true }
        (Except.ok (some "http://new-img")) (Except.error "price boom")
        (10 * 24 * 60 * 60 * 1000) 7 8).imageError = none) :=
  refreshOne_failure_frame c4Doc { refreshPrice := true, refreshImage := true }
    "img boom" "price boom" (some "http://new-img")
    { lowest := some 1, median := some 2, volume := some 3 }
    (10 * 24 * 60 * 60 * 1000) 7 8 (by decide) (by decide)

/-- Claim C9: when `upsertFromSheet` processes a row whose market name is
already stored, the update writes exactly the sheet-derived fields
(`marketName`, `name`, `wear`, `sheetPrice`, `floatValue`, `paintSeed`,
`sheetTimestamp`, `row`) and `lastSeenAt` — the updated document is the
old one with only those fields replaced, so the eight enrichment fields
are left unchanged; on first insert the enrichment fields are
initialized to `null` by `$setOnInsert`. -/
theorem upsert_enrichment_frame (d : ItemDoc) (r : List String) (now : ℕ)
    (hname : truthyStr (jsIndex r 0) = true) :
    upsertRow (some d) r now = some
      { d with marketName := toMarketName (jsIndex r 0) (jsIndex r 1),
               name := (jsIndex r 0).getD "", wear := jsIndex r 1,
               sheetPrice := numOrNull (jsIndex r 4), floatValue := numOrNull (jsIndex r 2),
               paintSeed := intOrNull (jsIndex r 3), sheetTimestamp := parseMDYDate (jsIndex r 7),
               row := r, lastSeenAt := now } ∧
    upsertRow none r now = some
      { marketName := toMarketName (jsIndex r 0) (jsIndex r 1),
        name := (jsIndex r 0).getD "", wear := jsIndex r 1,
        sheetPrice := numOrNull (jsIndex r 4), floatValue := numOrNull (jsIndex r 2),
        paintSeed := intOrNull (jsIndex r 3), sheetTimestamp := parseMDYDate (jsIndex r 7),
        row := r, lastSeenAt := now,
        imageUrl := none, steamLowest := none, steamMedian := none, steamVolume := none,
        imageUpdatedAt := none, steamUpdatedAt := none, imageError := none, steamError := none } := by
  unfold upsertRow
  simp [hname]

/-- Witness for claim C9 at a concrete stored document and sheet row. -/
theorem upsert_enrichment_frame_witness :
    upsertRow (some c9Doc) c9Row 99 = some
      { c9Doc with marketName := toMarketName (jsIndex c9Row 0) (jsIndex c9Row 1),
                   name := (jsIndex c9Row 0).getD "", wear := jsIndex c9Row 1,
                   sheetPrice := numOrNull (jsIndex c9Row 4),
                   floatValue := numOrNull (jsIndex c9Row 2),
                   paintSeed := intOrNull (jsIndex c9Row 3),
                   sheetTimestamp := parseMDYDate (jsIndex c9Row 7),
                   row := c9Row, lastSeenAt := 99 } ∧
    upsertRow none c9Row 99 = some
      { marketName := toMarketName (jsIndex c9Row 0) (jsIndex c9Row 1),
        name := (jsIndex c9Row 0).getD "", wear := jsIndex c9Row 1,
        sheetPrice := numOrNull (jsIndex c9Row 4), floatValue := numOrNull (jsIndex c9Row 2),
        paintSeed := intOrNull (jsIndex c9Row 3), sheetTimestamp := parseMDYDate (jsIndex c9Row 7),
        row := c9Row, lastSeenAt := 99,
        imageUrl := none, steamLowest := none, steamMedian := none, steamVolume := none,
        imageUpdatedAt := none, steamUpdatedAt := none, imageError := none, steamError := none } :=
  upsert_enrichment_frame c9Doc c9Row 99 (by decide)

theorem matchSizeTokenRev_tok (rest : List Char) :
    matchSizeTokenRev ("/360fx360f".data.reverse ++ rest) = some rest := rfl

theorem matchSizeTokenFwd_tok (xs : List Char) :
    matchSizeTokenFwd ("360fx360f".data ++ xs) = some xs := rfl

theorem upgrade_anchored_idem (u : String) :
    upgradeSteamImageSize (upgradeSteamImageSize u) = upgradeSteamImageSize u := by
  cases h : matchSizeTokenRev u.data.reverse with
  | none =>
    have h1 : upgradeSteamImageSize u = u := by
      unfold upgradeSteamImageSize
      rw [h]
    rw [h1, h1]
  | some rest =>
    have h1 : upgradeSteamImageSize u = String.mk (rest.reverse ++ "/360fx360f".data) := by
      unfold upgradeSteamImageSize
      rw [h]
    have h2 : matchSizeTokenRev (String.mk (rest.reverse ++ "/360fx360f".data)).data.reverse
        = some rest := by
      show matchSizeTokenRev (rest.reverse ++ "/360fx360f".data).reverse = some rest
      rw [List.reverse_append, List.reverse_reverse]
      exact matchSizeTokenRev_tok rest
    have h3 : upgradeSteamImageSize (String.mk (rest.reverse ++ "/360fx360f".data))
        = String.mk (rest.reverse ++ "/360fx360f".data) := by
      unfold upgradeSteamImageSize
      rw [h2]
    rw [h1, h3]

theorem scanG_slash_some (rest r4 : List Char) (h : matchSizeTokenFwd rest = some r4) :
    scanG ('/' :: rest) = '/' :: ("360fx360f".data ++ scanG r4) := by
  simp only [scanG]
  split
  · split
    · rename_i r4x hx
      rw [h] at hx
      injection hx with hx
      subst hx
      rfl
    · rename_i hx
      rw [h] at hx
      exact absurd hx (by simp)
  · rename_i hx
    exact absurd trivial hx

theorem scanG_slash_none (rest : List Char) (h : matchSizeTokenFwd rest = none) :
    scanG ('/' :: rest) = '/' :: scanG rest := by
  simp only [scanG]
  split
  · split
    · rename_i r4x hx
      rw [h] at hx
      exact absurd hx (by simp)
    · rfl
  · rename_i hx
    exact absurd trivial hx

theorem scanG_other (c : Char) (rest : List Char) (hc : c ≠ '/') :
    scanG (c :: rest) = c :: scanG rest := by
  simp [scanG, hc]

theorem spanDigits_append (d : List Char) (hd : ∀ c ∈ d, Char.isDigit c = true)
    (c0 : Char) (hc0 : ¬ Char.isDigit c0 = true) (r : List Char) :
    (d ++ c0 :: r).takeWhile Char.isDigit = d ∧
    (d ++ c0 :: r).dropWhile Char.isDigit = c0 :: r := by
  induction d with
  | nil => simp [List.takeWhile, List.dropWhile, hc0]
  | cons x xs ih =>
    have hx : Char.isDigit x = true := hd x (by simp)
    have ihh := ih (fun c hc => hd c (by simp [hc]))
    simp [List.takeWhile, List.dropWhile, hx, ihh.1, ihh.2]

theorem matchSizeTokenFwd_of_decomp (d1 d2 r : List Char)
    (h1 : d1 ≠ []) (h2 : d2 ≠ [])
    (hd1 : ∀ c ∈ d1, Char.isDigit c = true) (hd2 : ∀ c ∈ d2, Char.isDigit c = true) :
    matchSizeTokenFwd (d1 ++ 'f' :: 'x' :: (d2 ++ 'f' :: r)) = some r := by
  have s1 := spanDigits_append d1 hd1 'f' (by decide) ('x' :: (d2 ++ 'f' :: r))
  have s2 := spanDigits_append d2 hd2 'f' (by decide) r
  unfold matchSizeTokenFwd
  rw [s1.1, s1.2]
  cases d1 with
  | nil => exact absurd rfl h1
  | cons a as =>
    simp only []
    rw [s2.1, s2.2]
    cases d2 with
    | nil => exact absurd rfl h2
    | cons b bs => simp

theorem matchSizeTokenFwd_some_decomp (l r : List Char)
    (h : matchSizeTokenFwd l = some r) :
    ∃ d1 d2, l = d1 ++ 'f' :: 'x' :: (d2 ++ 'f' :: r) ∧ d1 ≠ [] ∧ d2 ≠ [] ∧
      (∀ c ∈ d1, Char.isDigit c = true) ∧ (∀ c ∈ d2, Char.isDigit c = true) := by
  have e0 := List.takeWhile_append_dropWhile (p := Char.isDigit) (l := l)
  unfold matchSizeTokenFwd at h
  split at h
  · exact absurd h (by simp)
  · rename_i hd tl r2 heq1 heq2
    have e2 := List.takeWhile_append_dropWhile (p := Char.isDigit) (l := r2)
    split at h
    · exact absurd h (by simp)
    · rename_i hd2 tl2 r4 heq3 heq4
      injection h with h4
      subst h4
      refine ⟨hd :: tl, hd2 :: tl2, ?_, by simp, by simp, ?_, ?_⟩
      · rw [← e0, heq1, heq2, ← e2, heq3, heq4]
      · intro c hc
        rw [← heq1] at hc
        exact List.mem_takeWhile_imp hc
      · intro c hc
        rw [← heq3] at hc
        exact List.mem_takeWhile_imp hc
    · exact absurd h (by simp)
  · exact absurd h (by simp)

theorem scanG_shape : ∀ l : List Char,
    ((∀ ch ∈ l, ch ≠ '/') ∧ scanG l = l) ∨
    ∃ a b c, l = a ++ '/' :: b ∧ (∀ ch ∈ a, ch ≠ '/') ∧ scanG l = a ++ '/' :: c := by
  intro l
  induction l with
  | nil => exact Or.inl ⟨by simp, by simp [scanG]⟩
  | cons ch rest ih =>
    by_cases hc : ch = '/'
    · subst hc
      right
      cases hm : matchSizeTokenFwd rest with
      | some r4 =>
        exact ⟨[], rest, "360fx360f".data ++ scanG r4, by simp, by simp,
          by simpa using scanG_slash_some rest r4 hm⟩
      | none =>
        exact ⟨[], rest, scanG rest, by simp, by simp,
          by simpa using scanG_slash_none rest hm⟩
    · rcases ih with ⟨hno, hid⟩ | ⟨a, b, c, hl, ha, hs⟩
      · left
        refine ⟨?_, ?_⟩
        · intro x hx
          rcases List.mem_cons.mp hx with hx | hx
          · subst hx; exact hc
          · exact hno x hx
        · rw [scanG_other ch rest hc, hid]
      · right
        refine ⟨ch :: a, b, c, by simp [hl], ?_, ?_⟩
        · intro x hx
          rcases List.mem_cons.mp hx with hx | hx
          · subst hx; exact hc
          · exact ha x hx
        · rw [scanG_other ch rest hc, hs]
          simp

theorem matchTok_none_scanG (rest : List Char) (h : matchSizeTokenFwd rest = none) :
    matchSizeTokenFwd (scanG rest) = none := by
  cases hm : matchSizeTokenFwd (scanG rest) with
  | none => rfl
  | some r =>
    exfalso
    obtain ⟨d1, d2, heq, h1, h2, hd1, hd2⟩ := matchSizeTokenFwd_some_decomp _ _ hm
    have hq : ∀ ch ∈ d1 ++ 'f' :: 'x' :: (d2 ++ ['f']), ch ≠ '/' := by
      intro ch hch hbad
      subst hbad
      rcases List.mem_append.mp hch with hch | hch
      · simpa using hd1 _ hch
      · rcases List.mem_cons.mp hch with hch | hch
        · exact absurd hch (by decide)
        · rcases List.mem_cons.mp hch with hch | hch
          · exact absurd hch (by decide)
          · rcases List.mem_append.mp hch with hch | hch
            · simpa using hd2 _ hch
            · exact absurd (List.mem_singleton.mp hch) (by decide)
    rcases scanG_shape rest with ⟨_, hid⟩ | ⟨a, b, c, hl, ha, hs⟩
    · rw [hid] at hm
      rw [hm] at h
      exact absurd h (by simp)
    · rw [hs] at heq
      have heq2 : a ++ '/' :: c = (d1 ++ 'f' :: 'x' :: (d2 ++ ['f'])) ++ r := by
        rw [heq]; simp
      rcases List.append_eq_append_iff.mp heq2 with ⟨a2, ha2, hr2⟩ | ⟨c2, hc2, hr2⟩
      · -- d1 ++ ... = a ++ a2 and '/' :: c = a2 ++ r
        cases a2 with
        | nil =>
          -- q = a, r = '/' :: c, so rest = q ++ '/' :: b
          simp only [List.append_nil] at ha2
          have : rest = (d1 ++ 'f' :: 'x' :: (d2 ++ ['f'])) ++ '/' :: b := by
            rw [hl, ha2]
          have hsome : matchSizeTokenFwd rest = some ('/' :: b) := by
            rw [this]
            have := matchSizeTokenFwd_of_decomp d1 d2 ('/' :: b) h1 h2 hd1 hd2
            simpa using this
          rw [hsome] at h
          exact absurd h (by simp)
        | cons x xs =>
          -- '/' :: c = (x :: xs) ++ r → x = '/' and x ∈ q: contradiction
          have hx : x = '/' := by
            have := hr2
            simp at this
            exact this.1.symm
          have hxq : x ∈ d1 ++ 'f' :: 'x' :: (d2 ++ ['f']) := by
            rw [ha2]
            simp
          exact hq x hxq (by rw [hx])
      · -- a = q ++ c2 and r = c2 ++ '/' :: c, so rest = q ++ (c2 ++ '/' :: b)
        have : rest = (d1 ++ 'f' :: 'x' :: (d2 ++ ['f'])) ++ (c2 ++ '/' :: b) := by
          rw [hl, hc2]; simp
        have hsome : matchSizeTokenFwd rest = some (c2 ++ '/' :: b) := by
          rw [this]
          have := matchSizeTokenFwd_of_decomp d1 d2 (c2 ++ '/' :: b) h1 h2 hd1 hd2
          simpa using this
        rw [hsome] at h
        exact absurd h (by simp)

theorem scanG_idem (l : List Char) : scanG (scanG l) = scanG l := by
  generalize hn : l.length = n
  induction n using Nat.strong_induction_on generalizing l with
  | _ n ih =>
    cases l with
    | nil => simp [scanG]
    | cons c rest =>
      by_cases hc : c = '/'
      · subst hc
        cases hm : matchSizeTokenFwd rest with
        | some r4 =>
          have hlt : r4.length < n := by
            obtain ⟨d1, d2, heq, h1, h2, _, _⟩ := matchSizeTokenFwd_some_decomp _ _ hm
            have e := congrArg List.length heq
            simp only [List.length_append, List.length_cons] at e
            simp only [← hn, List.length_cons]
            omega
          rw [scanG_slash_some rest r4 hm,
            scanG_slash_some _ _ (matchSizeTokenFwd_tok (scanG r4)),
            ih r4.length hlt r4 rfl]
        | none =>
          have hlt : rest.length < n := by
            simp only [← hn, List.length_cons]
            omega
          rw [scanG_slash_none rest hm,
            scanG_slash_none _ (matchTok_none_scanG rest hm),
            ih rest.length hlt rest rfl]
      · have hlt : rest.length < n := by
          simp only [← hn, List.length_cons]
          omega
        rw [scanG_other c rest hc, scanG_other c _ hc, ih rest.length hlt rest rfl]

/-- Claim C10: `upgradeSteamImageSize` is idempotent in both variants.
For the anchored src/server.js variant, one application either leaves
the string unchanged (no size token at the end) or rewrites the final
size token to `/360fx360f`, which the anchored pattern matches again and
rewrites to itself.  For the global persistent variant, after one pass
every size token reads `/360fx360f`, and a second pass rewrites each of
them to itself (no new match can span a replacement boundary, since a
match contains exactly one `/` and it must be the first character). -/
theorem upgradeSteamImageSize_idem (u : String) :
    upgradeSteamImageSize (upgradeSteamImageSize u) = upgradeSteamImageSize u ∧
    upgradeSteamImageSizeG (upgradeSteamImageSizeG u) = upgradeSteamImageSizeG u := by
  refine ⟨upgrade_anchored_idem u, ?_⟩
  show String.mk (scanG (String.mk (scanG u.data)).data) = String.mk (scanG u.data)
  rw [show (String.mk (scanG u.data)).data = scanG u.data from rfl, scanG_idem]

theorem pcl_dd (rest cur : List Char) :
    pclAux ('"' :: '"' :: rest) true cur = pclAux rest true (cur ++ ['"']) := rfl

theorem pcl_q_on (rest cur : List Char) :
    pclAux ('"' :: rest) false cur = pclAux rest true cur := by
  cases rest with
  | nil => rfl
  | cons c2 r2 =>
    by_cases hc2 : c2 = '"'
    · subst hc2; rfl
    · simp [pclAux, hc2]

theorem pcl_q_off (rest cur : List Char) (h : rest.head? ≠ some '"') :
    pclAux ('"' :: rest) true cur = pclAux rest false cur := by
  cases rest with
  | nil => rfl
  | cons c2 r2 =>
    by_cases hc2 : c2 = '"'
    · subst hc2; simp at h
    · simp [pclAux, hc2]

theorem pcl_comma (rest cur : List Char) :
    pclAux (',' :: rest) false cur = cur :: pclAux rest false [] := by
  simp [pclAux]

theorem pcl_other (c : Char) (rest cur : List Char) (inQ : Bool)
    (hq : c ≠ '"') (h2 : (c = ',' && !inQ) = false) :
    pclAux (c :: rest) inQ cur = pclAux rest inQ (cur ++ [c]) := by
  simp [pclAux, hq, h2]

theorem pclAux_esc (cs : List Char) : ∀ (l cur : List Char),
    pclAux (escQuotes cs ++ l) true cur = pclAux l true (cur ++ cs) := by
  induction cs with
  | nil => intro l cur; simp [escQuotes]
  | cons c cs ih =>
    intro l cur
    by_cases hc : c = '"'
    · subst hc
      have he : escQuotes ('"' :: cs) = '"' :: '"' :: escQuotes cs := by simp [escQuotes]
      rw [he, List.cons_append, List.cons_append, pcl_dd, ih]
      simp
    · have he : escQuotes (c :: cs) = c :: escQuotes cs := by simp [escQuotes, hc]
      rw [he, List.cons_append, pcl_other c _ _ true hc (by simp), ih]
      simp

theorem pclAux_encode : ∀ (cells : List (List Char)), cells ≠ [] →
    pclAux (encodeLine cells) false [] = cells := by
  intro cells
  induction cells with
  | nil => intro h; exact absurd rfl h
  | cons c cs ih =>
    intro _
    cases cs with
    | nil =>
      show pclAux (encodeCell c) false [] = [c]
      unfold encodeCell
      rw [pcl_q_on, pclAux_esc c ['"'] []]
      simp only [List.nil_append]
      rw [pcl_q_off [] c (by simp)]
      rfl
    | cons c2 cs2 =>
      show pclAux (encodeCell c ++ ',' :: encodeLine (c2 :: cs2)) false [] = c :: c2 :: cs2
      unfold encodeCell
      rw [List.cons_append, pcl_q_on, List.append_assoc, pclAux_esc c _ []]
      simp only [List.nil_append, List.singleton_append]
      rw [pcl_q_off (',' :: encodeLine (c2 :: cs2)) c (by simp)]
      rw [pcl_comma, ih (by simp)]

/-- Claim C8, counterexample: the line `" a,b"` is exactly the
quote-enclosed encoding of the cell ` a,b` (leading space, embedded
comma), yet parsing returns `a,b` — the final `out.map(s => s.trim())`
of `parseCsvLine` strips the edge whitespace, so the original cell
content is not returned character for character. -/
theorem parseCsvLine_trims_quoted_cell_cex :
    parseCsvLine "\" a,b\"" = ["a,b"] ∧
    "\" a,b\"" = String.mk (encodeLine [" a,b".data]) ∧
    ["a,b"] ≠ [" a,b"] := by
  decide

/-- Claim C8, amended: for every non-empty list of cells, parsing the
line built by enclosing each cell in double quotes (doubling inner
quotes) returns the cells with each one trimmed; hence the round trip is
exact precisely for cells with no leading or trailing whitespace —
embedded commas and escaped quotes are recovered character for
character. -/
theorem parseCsvLine_quoted_roundtrip (cells : List (List Char)) (hne : cells ≠ [])
    (htrim : ∀ c ∈ cells, trimChars c = c) :
    parseCsvLineL (encodeLine cells) = cells := by
  unfold parseCsvLineL
  rw [pclAux_encode cells hne]
  have h := List.map_congr_left (f := trimChars) (g := id) htrim
  simpa using h

/-- Witness for the amended claim C8 at two concrete cells, one with an
embedded comma and one with an embedded quote. -/
theorem parseCsvLine_quoted_roundtrip_witness :
    parseCsvLineL (encodeLine [['a', ',', 'b'], ['x', '"', 'y']]) =
      [['a', ',', 'b'], ['x', '"', 'y']] :=
  parseCsvLine_quoted_roundtrip [['a', ',', 'b'], ['x', '"', 'y']] (by simp) (by decide)

theorem replicate_get?_eq {γ : Type} (n i : ℕ) (x y : γ)
    (h : (List.replicate n x).get? i = some y) : y = x := by
  rw [List.get?_eq_getElem?, List.getElem?_replicate] at h
  by_cases hi : i < n
  · simp [hi] at h
    exact h.symm
  · simp [hi] at h

theorem MLInv_init (N M : ℕ) {β : Type} (f : ℕ → β) : MLInv N M f (mapLimitInit β N M) := by
  refine ⟨by simp [mapLimitInit], by simp [mapLimitInit], by simp [mapLimitInit],
    by simp [mapLimitInit], ?_, ?_, ?_, ?_, ?_⟩
  · intro p j hp
    have := replicate_get?_eq _ _ _ _ hp
    exact absurd this (by simp)
  · intro p q j hp hq
    have := replicate_get?_eq _ _ _ _ hp
    exact absurd this (by simp)
  · intro p hp
    have := replicate_get?_eq _ _ _ _ hp
    exact absurd this (by simp)
  · intro i hi
    exact absurd hi (by simp [mapLimitInit])
  · intro i _ hiN
    constructor
    · show (List.replicate N 0).get? i = some 0
      rw [List.get?_eq_getElem?, List.getElem?_replicate]
      simp [hiN]
    · show (List.replicate N (none : Option β)).get? i = some none
      rw [List.get?_eq_getElem?, List.getElem?_replicate]
      simp [hiN]

theorem MLInv_step (N M : ℕ) {β : Type} (f : ℕ → β) (s t : MapLimitState β)
    (hinv : MLInv N M f s) (hstep : MapLimitStep N f s t) : MLInv N M f t := by
  obtain ⟨hres, hgr, hws, hidx, hcomp, huniq, hdone, hlo, hhi⟩ := hinv
  cases hstep with
  | grab p hp hidxlt =>
    obtain ⟨hplen, _⟩ := List.get?_eq_some.mp hp
    have hg0 : s.grabs.getD s.idx 0 = 0 := by
      have h0 := (hhi s.idx (le_refl _) hidxlt).1
      rw [List.getD_eq_getElem?_getD, ← List.get?_eq_getElem?, h0]
      rfl
    dsimp only [MLInv]
    refine ⟨hres, by simpa using hgr, by simpa using hws, by omega, ?_, ?_, ?_, ?_, ?_⟩
    · intro p2 j h2
      by_cases hpp : p2 = p
      · subst hpp
        rw [List.get?_set_eq_of_lt _ hplen] at h2
        simp only [Option.some.injEq, WStatus.comp.injEq] at h2
        omega
      · rw [List.get?_set_ne _ _ (Ne.symm hpp)] at h2
        have := hcomp p2 j h2
        omega
    · intro p2 q2 j h2 hq2
      by_cases hpp : p2 = p <;> by_cases hqq : q2 = p
      · rw [hpp, hqq]
      · subst hpp
        rw [List.get?_set_eq_of_lt _ hplen] at h2
        simp only [Option.some.injEq, WStatus.comp.injEq] at h2
        rw [List.get?_set_ne _ _ (Ne.symm hqq), ← h2] at hq2
        have := hcomp q2 s.idx hq2
        omega
      · subst hqq
        rw [List.get?_set_eq_of_lt _ hplen] at hq2
        simp only [Option.some.injEq, WStatus.comp.injEq] at hq2
        rw [List.get?_set_ne _ _ (Ne.symm hpp), ← hq2] at h2
        have := hcomp p2 s.idx h2
        omega
      · rw [List.get?_set_ne _ _ (Ne.symm hpp)] at h2
        rw [List.get?_set_ne _ _ (Ne.symm hqq)] at hq2
        exact huniq p2 q2 j h2 hq2
    · intro p2 h2
      by_cases hpp : p2 = p
      · subst hpp
        rw [List.get?_set_eq_of_lt _ hplen] at h2
        simp at h2
      · rw [List.get?_set_ne _ _ (Ne.symm hpp)] at h2
        have := hdone p2 h2
        omega
    · intro i hi
      by_cases hii : i = s.idx
      · subst hii
        refine ⟨?_, Or.inr ⟨p, by rw [List.get?_set_eq_of_lt _ hplen]⟩⟩
        rw [List.get?_set_eq_of_lt _ (by rw [hgr]; exact hidxlt), hg0]
      · have hi2 : i < s.idx := by omega
        obtain ⟨hga, hrr⟩ := hlo i hi2
        refine ⟨?_, ?_⟩
        · rw [List.get?_set_ne _ _ (by omega : s.idx ≠ i)]
          exact hga
        · rcases hrr with hr | ⟨q, hq⟩
          · exact Or.inl hr
          · refine Or.inr ⟨q, ?_⟩
            have hqp : q ≠ p := by
              intro hqp
              rw [hqp, hp] at hq
              simp at hq
            rw [List.get?_set_ne _ _ (Ne.symm hqp)]
            exact hq
    · intro i hge hiN
      obtain ⟨hga, hrr⟩ := hhi i (by omega) hiN
      exact ⟨by rw [List.get?_set_ne _ _ (by omega : s.idx ≠ i)]; exact hga, hrr⟩
  | write p j hp =>
    obtain ⟨hplen, _⟩ := List.get?_eq_some.mp hp
    have hj : j < s.idx := hcomp p j hp
    have hjN : j < N := lt_of_lt_of_le hj hidx
    dsimp only [MLInv]
    refine ⟨by simpa using hres, hgr, by simpa using hws, hidx, ?_, ?_, ?_, ?_, ?_⟩
    · intro p2 j2 h2
      by_cases hpp : p2 = p
      · subst hpp
        rw [List.get?_set_eq_of_lt _ hplen] at h2
        simp at h2
      · rw [List.get?_set_ne _ _ (Ne.symm hpp)] at h2
        exact hcomp p2 j2 h2
    · intro p2 q2 j2 h2 hq2
      by_cases hpp : p2 = p
      · subst hpp
        rw [List.get?_set_eq_of_lt _ hplen] at h2
        simp at h2
      · by_cases hqq : q2 = p
        · subst hqq
          rw [List.get?_set_eq_of_lt _ hplen] at hq2
          simp at hq2
        · rw [List.get?_set_ne _ _ (Ne.symm hpp)] at h2
          rw [List.get?_set_ne _ _ (Ne.symm hqq)] at hq2
          exact huniq p2 q2 j2 h2 hq2
    · intro p2 h2
      by_cases hpp : p2 = p
      · subst hpp
        rw [List.get?_set_eq_of_lt _ hplen] at h2
        simp at h2
      · rw [List.get?_set_ne _ _ (Ne.symm hpp)] at h2
        exact hdone p2 h2
    · intro i hi
      by_cases hij : i = j
      · subst hij
        refine ⟨(hlo i hi).1, Or.inl ?_⟩
        rw [List.get?_set_eq_of_lt _ (by rw [hres]; exact hjN)]
      · obtain ⟨hga, hrr⟩ := hlo i hi
        refine ⟨hga, ?_⟩
        rcases hrr with hr | ⟨q, hq⟩
        · refine Or.inl ?_
          rw [List.get?_set_ne _ _ (by omega : j ≠ i)]
          exact hr
        · refine Or.inr ⟨q, ?_⟩
          have hqp : q ≠ p := by
            intro hqp
            rw [hqp, hp] at hq
            simp only [Option.some.injEq, WStatus.comp.injEq] at hq
            exact hij hq.symm
          rw [List.get?_set_ne _ _ (Ne.symm hqp)]
          exact hq
    · intro i hge hiN
      obtain ⟨hga, hrr⟩ := hhi i hge hiN
      refine ⟨hga, ?_⟩
      rw [List.get?_set_ne _ _ (by omega : j ≠ i)]
      exact hrr
  | exit p hp hN =>
    obtain ⟨hplen, _⟩ := List.get?_eq_some.mp hp
    dsimp only [MLInv]
    refine ⟨hres, hgr, by simpa using hws, hidx, ?_, ?_, ?_, ?_, hhi⟩
    · intro p2 j2 h2
      by_cases hpp : p2 = p
      · subst hpp
        rw [List.get?_set_eq_of_lt _ hplen] at h2
        simp at h2
      · rw [List.get?_set_ne _ _ (Ne.symm hpp)] at h2
        exact hcomp p2 j2 h2
    · intro p2 q2 j2 h2 hq2
      by_cases hpp : p2 = p
      · subst hpp
        rw [List.get?_set_eq_of_lt _ hplen] at h2
        simp at h2
      · by_cases hqq : q2 = p
        · subst hqq
          rw [List.get?_set_eq_of_lt _ hplen] at hq2
          simp at hq2
        · rw [List.get?_set_ne _ _ (Ne.symm hpp)] at h2
          rw [List.get?_set_ne _ _ (Ne.symm hqq)] at hq2
          exact huniq p2 q2 j2 h2 hq2
    · intro p2 h2
      by_cases hpp : p2 = p
      · exact hN
      · rw [List.get?_set_ne _ _ (Ne.symm hpp)] at h2
        exact hdone p2 h2
    · intro i hi
      obtain ⟨hga, hrr⟩ := hlo i hi
      refine ⟨hga, ?_⟩
      rcases hrr with hr | ⟨q, hq⟩
      · exact Or.inl hr
      · refine Or.inr ⟨q, ?_⟩
        have hqp : q ≠ p := by
          intro hqp
          rw [hqp, hp] at hq
          simp at hq
        rw [List.get?_set_ne _ _ (Ne.symm hqp)]
        exact hq

theorem MLInv_reach (N M : ℕ) {β : Type} (f : ℕ → β) (s t : MapLimitState β)
    (hinv : MLInv N M f s) (hreach : MapLimitReaches N f s t) : MLInv N M f t := by
  induction hreach with
  | refl => exact hinv
  | tail hr hstep ih => exact MLInv_step N M f _ _ ih hstep

theorem mapLimit_terminal_correct (N M : ℕ) {β : Type} (f : ℕ → β)
    (hM : 1 ≤ M) (hMN : M ≤ N) (t : MapLimitState β)
    (hreach : MapLimitReaches N f (mapLimitInit β N M) t)
    (hterm : MapLimitTerminal t) :
    t.res.length = N ∧
    ∀ i, i < N → t.res.get? i = some (some (f i)) ∧ t.grabs.get? i = some 1 := by
  obtain ⟨hres, hgr, hws, hidx, hcomp, huniq, hdone, hlo, hhi⟩ :=
    MLInv_reach N M f _ t (MLInv_init N M f) hreach
  have hwpos : 0 < t.ws.length := by
    rw [hws]
    omega
  have hw0 : t.ws.get? 0 = some (t.ws.get ⟨0, hwpos⟩) := List.get?_eq_get hwpos
  have hwd : t.ws.get ⟨0, hwpos⟩ = WStatus.done := hterm _ (List.get?_mem hw0)
  rw [hwd] at hw0
  have hNidx : N ≤ t.idx := hdone 0 hw0
  refine ⟨hres, ?_⟩
  intro i hi
  obtain ⟨hga, hrr⟩ := hlo i (lt_of_lt_of_le hi hNidx)
  refine ⟨?_, hga⟩
  rcases hrr with hr | ⟨q, hq⟩
  · exact hr
  · have := hterm _ (List.get?_mem hq)
    simp at this

/-- Claim C3: for every item list and concurrency limit `M` with
`1 ≤ M ≤ N`, every interleaving of the `mapLimit` workers that runs to
completion (all `Math.min(M, N)` workers exited, i.e. `Promise.all`
resolved) hands every index to the transform exactly once (ghost grab
count 1) and returns an array of length `N` whose `i`-th slot holds the
transform's result for the `i`-th input item — regardless of the order
in which grabs, completions and exits interleave. -/
theorem mapLimit_inorder {α β : Type} [Inhabited α] (items : List α) (fn : α → ℕ → β)
    (M : ℕ) (hM : 1 ≤ M) (hMN : M ≤ items.length) (t : MapLimitState β)
    (hreach : MapLimitReaches items.length (fun i => fn (items.getD i default) i)
      (mapLimitInit β items.length M) t)
    (hterm : MapLimitTerminal t) :
    t.res.length = items.length ∧
    ∀ i (hi : i < items.length),
      t.res.get? i = some (some (fn (items.get ⟨i, hi⟩) i)) ∧ t.grabs.get? i = some 1 := by
  obtain ⟨h1, h2⟩ := mapLimit_terminal_correct items.length M _ hM hMN t hreach hterm
  refine ⟨h1, ?_⟩
  intro i hi
  have hd : items.getD i default = items.get ⟨i, hi⟩ := by
    rw [List.getD_eq_getElem?_getD, ← List.get?_eq_getElem?, List.get?_eq_get hi]
    rfl
  have h3 := h2 i hi
  rwa [hd] at h3

/-- Witness for claim C3: a complete one-item, one-worker run
(grab, write, exit) reached from the initial state. -/
theorem mapLimit_inorder_witness :
    mlWitFinal.res.length = (["A"] : List String).length ∧
    ∀ i (hi : i < (["A"] : List String).length),
      mlWitFinal.res.get? i =
        some (some ((fun (_ : String) (k : ℕ) => k + 7) ((["A"] : List String).get ⟨i, hi⟩) i)) ∧
      mlWitFinal.grabs.get? i = some 1 :=
  mapLimit_inorder ["A"] (fun _ k => k + 7) 1 (by decide) (by decide) mlWitFinal
    (Relation.ReflTransGen.tail
      (Relation.ReflTransGen.tail
        (Relation.ReflTransGen.tail Relation.ReflTransGen.refl
          (MapLimitStep.grab (mapLimitInit ℕ 1 1) 0 rfl (by decide)))
        (MapLimitStep.write mlWitS1 0 0 rfl))
      (MapLimitStep.exit mlWitS2 0 rfl (by decide)))
    (fun w hw => List.mem_singleton.mp hw)

end Items
